import Mathlib

/-!
Verification of the msak measurement server (m-lab/msak).

This file gives a shallow embedding, in Lean 4, of the parts of the msak
source that the checked claims are about:

* the throughput1 sender loop and its adaptive frame sizing / byte-limit
  termination (pkg/throughput1/protocol.go: Protocol.sender,
  Protocol.ScaleMessage, Protocol.sendWireMeasurement,
  Protocol.createWireMeasurement);
* the throughput1 kernel measurer (internal/measurer:
  Throughput1Measurer.Start / measure / Measure);
* the latency1 UDP packet processing (internal/latency1/latency1.go:
  Handler.processPacket, Handler.Result) and its data model
  (pkg/latency1/model/result.go);
* the throughput1 HTTP handler validation of the bytes query parameter
  (internal/handler: Handler.upgradeAndRunMeasurement);
* the connection substrate UUID derivation (internal/netx: Conn.UUID).

Machine integers are modelled as Int (no arithmetic here approaches 2^63,
so overflow is not observable), timestamps as Int microseconds, and stateful
Go loops as explicit step functions over small state structures driven by an
event schedule.
-/

namespace Msak

/-! Constants from pkg/throughput1/spec (spec.go). -/

namespace spec

/-- MinMessageSize is the initial size of a Websocket binary message (1 << 10). -/
def MinMessageSize : Int := 1024

/-- MaxScaledMessageSize is the maximum scaled binary message size (1 << 20). -/
def MaxScaledMessageSize : Int := 1048576

/-- ScalingFraction sets the threshold for scaling binary messages. -/
def ScalingFraction : Int := 16

end spec

/-! Embedding of Protocol.sender (pkg/throughput1/protocol.go, lines 241-320).

The sender loop interleaves three select branches: ctx.Done (not modelled:
no claim is about context cancellation), a Measurement arriving on
measurerCh (which is JSON-encoded and written as a text frame, adding its
encoded length to applicationBytesSent), and the default branch (which
writes the pre-allocated binary message and adds `size` to
applicationBytesSent, then checks the byte limit and rescales). A concrete
execution is a list of SenderEvent, one entry per loop turn. -/

/-- State of the Protocol.sender loop: the configured byte limit
(Protocol.byteLimit), the `size` local variable, the size of the currently
prepared binary message (`message`), and the applicationBytesSent counter. -/
structure SenderState where
  byteLimit : Int
  size : Int
  prepSize : Int
  bytesSent : Int
deriving Repr, DecidableEq

/-- One select-branch taken by a turn of the sender loop: either the default
branch (binary frame write) or a Measurement received from the measurer
channel, whose JSON encoding has the given length. -/
inductive SenderEvent where
  | binary
  | measurement (jsonLen : Int)
deriving Repr, DecidableEq

/-- Result of one turn of the sender loop: either the loop keeps running in a
new state, or the byte limit was reached, in which case the sender emits a
final WireMeasurement whose Application.BytesSent equals `reported`, sends a
websocket close frame, and returns. -/
inductive SenderStep where
  | running (s : SenderState)
  | limitReached (reported : Int)
deriving Repr, DecidableEq

/-- Protocol.ScaleMessage (protocol.go, lines 312-320): if the next payload
size would push the total number of bytes over the byte limit, shrink it by
the excess. -/
def ScaleMessage (byteLimit msgSize bytesSent : Int) : Int :=
  let excess := bytesSent + msgSize - byteLimit
  if byteLimit > 0 ∧ excess > 0 then msgSize - excess else msgSize

/-- Initial sender state (protocol.go, line 243): size is MinMessageSize
scaled against bytesSent = 0, and the prepared message has that size. -/
def senderInit (byteLimit : Int) : SenderState :=
  let size := ScaleMessage byteLimit spec.MinMessageSize 0
  { byteLimit := byteLimit, size := size, prepSize := size, bytesSent := 0 }

/-- One turn of the Protocol.sender loop (protocol.go, lines 255-309).

On a measurement event, sendWireMeasurement writes the JSON text frame and
adds its length to applicationBytesSent (protocol.go, line 203); there is no
byte-limit check on this branch. On the default branch the prepared binary
message is written, `size` is added to applicationBytesSent, the byte limit
is checked (lines 284-293), and the message size is rescaled: if
size >= MaxScaledMessageSize or size > bytesSent/ScalingFraction the size is
only re-clamped (and the prepared message is not rebuilt, line 296-299);
otherwise the size doubles, is clamped, and the message is rebuilt
(lines 301-307). Go integer division truncates toward zero, i.e. Int.tdiv. -/
def senderStep (s : SenderState) : SenderEvent → SenderStep
  | .measurement jsonLen =>
      .running { s with bytesSent := s.bytesSent + jsonLen }
  | .binary =>
      let bytesSent := s.bytesSent + s.size
      if s.byteLimit > 0 ∧ bytesSent ≥ s.byteLimit then
        .limitReached bytesSent
      else if s.size ≥ spec.MaxScaledMessageSize ∨
          s.size > bytesSent.tdiv spec.ScalingFraction then
        .running { s with bytesSent := bytesSent,
                          size := ScaleMessage s.byteLimit s.size bytesSent }
      else
        let newSize := ScaleMessage s.byteLimit (s.size * 2) bytesSent
        .running { s with bytesSent := bytesSent, size := newSize,
                          prepSize := newSize }

/-- Run the sender loop from a state over a schedule of events, stopping at
byte-limit termination. -/
def senderRunFrom (s : SenderState) : List SenderEvent → SenderStep
  | [] => .running s
  | e :: rest =>
      match senderStep s e with
      | .limitReached v => .limitReached v
      | .running s2 => senderRunFrom s2 rest

/-- Run the sender loop from its initial state. -/
def senderRun (byteLimit : Int) (events : List SenderEvent) : SenderStep :=
  senderRunFrom (senderInit byteLimit) events

/-- The trace of binary frame writes performed by the sender over a schedule:
for each default-branch turn, the pair of the frame size counted into
applicationBytesSent and the value of applicationBytesSent just after the
write. -/
def senderWrites (s : SenderState) : List SenderEvent → List (Int × Int)
  | [] => []
  | .measurement j :: rest =>
      senderWrites { s with bytesSent := s.bytesSent + j } rest
  | .binary :: rest =>
      (s.size, s.bytesSent + s.size) ::
        match senderStep s .binary with
        | .limitReached _ => []
        | .running s2 => senderWrites s2 rest

/-- Sender-state invariant when no byte limit is configured: the message size
is a power of two between MinMessageSize = 2^10 and MaxScaledMessageSize
= 2^20. -/
def SizeInv (s : SenderState) : Prop :=
  s.byteLimit = 0 ∧ ∃ k : Nat, k ≤ 10 ∧ s.size = 2 ^ (10 + k)

/-! Data model of pkg/throughput1/model (measurement.go) and the identity
injection of Protocol.sendWireMeasurement / Protocol.createWireMeasurement
(claim C2). -/

/-- ByteCounters (pkg/throughput1/model): an application- or network-level
BytesSent/BytesReceived pair. -/
structure ByteCounters where
  bytesSent : Int
  bytesReceived : Int
deriving Repr, DecidableEq

/-- TCPInfo (pkg/throughput1/model): Linux TCP_INFO extended with the elapsed
time since the connection was accepted. Of the kernel struct only the field
read by the verified code (BytesReceived) is modelled. -/
structure TCPInfo where
  bytesReceived : Int
  elapsedTime : Int
deriving Repr, DecidableEq

/-- Measurement (pkg/throughput1/model): the fields read or written by the
verified code. BBRInfo is an opaque bag never inspected by it and is
omitted. A nil TCPInfo pointer is Option.none. -/
structure Measurement where
  elapsedTime : Int
  application : ByteCounters
  network : ByteCounters
  tcpInfo : Option TCPInfo
deriving Repr, DecidableEq

/-- The Go zero value Measurement{}. -/
def Measurement.zero : Measurement :=
  { elapsedTime := 0, application := ⟨0, 0⟩, network := ⟨0, 0⟩,
    tcpInfo := none }

/-- WireMeasurement (pkg/throughput1/model): the JSON envelope sent between
peers, wrapping a Measurement plus once-per-stream identity fields. -/
structure WireMeasurement where
  cc : String
  uuid : String
  localAddr : String
  remoteAddr : String
  measurement : Measurement
deriving Repr, DecidableEq

/-- The Go zero value WireMeasurement{} (all identity strings empty). -/
def WireMeasurement.zero : WireMeasurement :=
  { cc := "", uuid := "", localAddr := "", remoteAddr := "",
    measurement := Measurement.zero }

/-- Connection identity as read by Protocol.createWireMeasurement: the
congestion control reported by GetCC (an empty string when GetCC fails,
which is expected on some platforms), the connection UUID, and the local and
remote endpoints of the websocket connection. -/
structure ConnIdentity where
  cc : String
  uuid : String
  localAddr : String
  remoteAddr : String
deriving Repr, DecidableEq

/-- Protocol.createWireMeasurement (protocol.go, lines 337-355): a
WireMeasurement populated with the connection's identity. -/
def createWireMeasurement (ident : ConnIdentity) : WireMeasurement :=
  { cc := ident.cc, uuid := ident.uuid, localAddr := ident.localAddr,
    remoteAddr := ident.remoteAddr, measurement := Measurement.zero }

/-- Protocol.sendWireMeasurement (protocol.go, lines 181-205): the message
starts as the zero WireMeasurement; the identity fields are populated only
when the protocol's sync.Once has not fired yet; then the wrapped
Measurement and the Application counters are set. Returns the encoded
message and the updated once-flag. -/
def sendWireMeasurement (ident : ConnIdentity) (onceDone : Bool)
    (m : Measurement) (counters : ByteCounters) : WireMeasurement × Bool :=
  let wm := if onceDone then WireMeasurement.zero
            else createWireMeasurement ident
  ({ wm with measurement := { m with application := counters } }, true)

/-- The sequence of outgoing WireMeasurements of one stream direction, given
the sequence of (Measurement, Application counter snapshot) pairs passed to
consecutive sendWireMeasurement calls, starting from a given once-flag. -/
def wireSequenceFrom (ident : ConnIdentity) (onceDone : Bool) :
    List (Measurement × ByteCounters) → List WireMeasurement
  | [] => []
  | (m, c) :: rest =>
      let r := sendWireMeasurement ident onceDone m c
      r.1 :: wireSequenceFrom ident r.2 rest

/-- The outgoing WireMeasurements of a fresh Protocol instance (its sync.Once
has not fired yet). -/
def outgoingWires (ident : ConnIdentity)
    (inputs : List (Measurement × ByteCounters)) : List WireMeasurement :=
  wireSequenceFrom ident false inputs

/-- All four identity fields of a WireMeasurement are non-empty. -/
def identityPresent (wm : WireMeasurement) : Prop :=
  wm.cc ≠ "" ∧ wm.uuid ≠ "" ∧ wm.localAddr ≠ "" ∧ wm.remoteAddr ≠ ""

/-- All four identity fields of a WireMeasurement are elided (empty). -/
def identityElided (wm : WireMeasurement) : Prop :=
  wm.cc = "" ∧ wm.uuid = "" ∧ wm.localAddr = "" ∧ wm.remoteAddr = ""

instance (wm : WireMeasurement) : Decidable (identityPresent wm) := by
  unfold identityPresent
  infer_instance

instance (wm : WireMeasurement) : Decidable (identityElided wm) := by
  unfold identityElided
  infer_instance

/-! KernelMeasurer sampling (claims C6 and C9): Throughput1Measurer in
internal/measurer. Its measure method sends each sample with a two-case
select over ctx.Done() and the channel send, with no default branch. -/

/-- Buffer size of the measurer's output channel (internal/measurer:
make(chan model.Measurement, 100)). -/
def measurerChannelCapacity : Nat := 100

/-- Possible outcomes of one execution of Throughput1Measurer.measure. -/
inductive SendOutcome where
  | sent
  | dropCtx
  | blocked
deriving Repr, DecidableEq

/-- Go select semantics of Throughput1Measurer.measure: whether each outcome
can occur, given whether the context is done and the channel fill level. The
ctx.Done case can fire iff the context is done (the sample is then dropped);
the send case can fire iff the buffer has room; since the select has no
default branch, the goroutine blocks iff neither case is ready. -/
def measureSelectCanTake (ctxDone : Bool) (queueLen chanCap : Nat) :
    SendOutcome → Bool
  | .dropCtx => ctxDone
  | .sent => decide (queueLen < chanCap)
  | .blocked => !ctxDone && !(decide (queueLen < chanCap))

/-- Byte counters of a connection as returned by ConnInfo.ByteCounters():
the pair (bytesRead, bytesWritten). -/
structure ConnCounters where
  bytesRead : Int
  bytesWritten : Int
deriving Repr, DecidableEq

/-- Throughput1Measurer (internal/measurer): the state recorded by Start —
the start time and the byte counters at start, kept as offsets. -/
structure Throughput1Measurer where
  startTime : Int
  bytesReadAtStart : Int
  bytesWrittenAtStart : Int
deriving Repr, DecidableEq

/-- Throughput1Measurer.Start (internal/measurer): reads the connection's
current byte counters and records them as offsets, together with the start
time. -/
def measurerStart (now : Int) (counters : ConnCounters) :
    Throughput1Measurer :=
  { startTime := now, bytesReadAtStart := counters.bytesRead,
    bytesWrittenAtStart := counters.bytesWritten }

/-- Throughput1Measurer.Measure (internal/measurer): builds a Measurement
from the current counters, the current time and the connection's accept
time. The Network pair carries the offset-subtracted counters (per the
source comment these are the application-level bytes since measurement
start); the Application pair is left at its zero value (it is filled in by
the protocol); BBRInfo and the kernel TCP_INFO payload are opaque bags the
verified code never inspects, so the latter is modelled at its zero value.
Times are Int microseconds. -/
def measurerMeasure (m : Throughput1Measurer) (acceptTime now : Int)
    (counters : ConnCounters) : Measurement :=
  { elapsedTime := now - m.startTime,
    application := ⟨0, 0⟩,
    network := ⟨counters.bytesWritten - m.bytesWrittenAtStart,
                counters.bytesRead - m.bytesReadAtStart⟩,
    tcpInfo := some ⟨0, now - acceptTime⟩ }

/-! Connection UUID (claim C10): Conn.UUID in internal/netx. -/

/-- The UUID-relevant state of a netx.Conn: the result of uuid.FromFile on
the connection's duplicated file descriptor (deterministic per connection,
derived from the SO_COOKIE socket cookie; none when the platform does not
support it), and the google/uuid time-based generator used as fallback,
modelled by the value it returns at the n-th UUID() call on this
connection. -/
structure ConnUUIDSource where
  cookieUUID : Option String
  fallbackUUID : Nat → String

/-- Conn.UUID (internal/netx): returns the cookie-derived id when
uuid.FromFile succeeds; otherwise calls guuid.NewUUID() to generate a fresh
time-based UUID. The netx.Conn struct has no uuid field: nothing is cached,
and the fallback generator runs again on every call. -/
def connUUID (c : ConnUUIDSource) (callIndex : Nat) : String :=
  match c.cookieUUID with
  | some u => u
  | none => c.fallbackUUID callIndex

/-! Latency1 data model (pkg/latency1/model/result.go) and UDP packet
processing / result endpoint (internal/latency1/latency1.go): claims C4, C5
and C7. -/

/-- RoundTrip (pkg/latency1/model): the RTT in microseconds and whether the
reply was lost. -/
structure RoundTrip where
  rtt : Int
  lost : Bool
deriving Repr, DecidableEq

/-- Session (pkg/latency1/model): in-memory state of one UDP latency
measurement. SendTimes are Int microsecond timestamps indexed by sequence
number. The mutexes of the Go struct only serialize access and carry no
data; LastRTT is the value of the atomic counter. -/
structure Session where
  uuid : String
  startTime : Int
  client : String
  server : String
  started : Bool
  sendTimes : List Int
  roundTrips : List RoundTrip
  lastRTT : Int
deriving Repr, DecidableEq

/-- NewSession (pkg/latency1/model): an empty session with all fields
initialized. -/
def NewSession (uuid : String) (now : Int) : Session :=
  { uuid := uuid, startTime := now, client := "", server := "",
    started := false, sendTimes := [], roundTrips := [], lastRTT := 0 }

/-- LatencyPacket (pkg/latency1/model): the decoded JSON payload of a
latency UDP packet. Seq is a Go int, so a hostile UDP peer can make it
negative. -/
structure LatencyPacket where
  type : String
  id : String
  seq : Int
  lastRTT : Int
deriving Repr, DecidableEq

/-- Outcome of Handler.processPacket on one decoded packet: an error return,
a Go runtime panic raised by a negative or out-of-range slice index, or the
resulting session state. -/
inductive PacketOutcome where
  | unauthorized
  | invalidSeq
  | indexOutOfRange
  | updated (s : Session)
  | kickoff (s : Session)
  | ignored
deriving Repr, DecidableEq

/-- The s2c branch of Handler.processPacket (latency1.go, lines 238-259),
executed under the session's send-times mutex: seq >= len(SendTimes) is
rejected as InvalidSeq; otherwise SendTimes[seq] is indexed without a lower
bound — a Go runtime panic (index out of range) when seq < 0 — and
rtt = recvTime - SendTimes[seq] (microseconds) is stored in LastRTT while
RoundTrips[seq] is overwritten with {RTT: rtt, Lost: false} (again a panic
if seq is out of range for RoundTrips). -/
def processPacketS2C (session : Session) (seq recvTime : Int) :
    PacketOutcome :=
  if (session.sendTimes.length : Int) ≤ seq then .invalidSeq
  else if h : 0 ≤ seq ∧ seq.toNat < session.sendTimes.length then
    let rtt := recvTime - session.sendTimes.get ⟨seq.toNat, h.2⟩
    if seq.toNat < session.roundTrips.length then
      .updated { session with
        lastRTT := rtt,
        roundTrips := session.roundTrips.set seq.toNat ⟨rtt, false⟩ }
    else .indexOutOfRange
  else .indexOutOfRange

/-- Handler.processPacket (latency1.go, lines 216-276), after the JSON
payload has been decoded: look up the session by packet id under the cache
mutex (an unknown id is unauthorized); s2c packets update the session's RTT
state; the first c2s packet records the client/server endpoints and starts
the send loop, later kickoffs are ignored; any other type is a no-op. -/
def processPacket (sessions : List (String × Session)) (m : LatencyPacket)
    (remoteAddr localAddr : String) (recvTime : Int) : PacketOutcome :=
  match List.lookup m.id sessions with
  | none => .unauthorized
  | some session =>
    if m.type = "s2c" then processPacketS2C session m.seq recvTime
    else if m.type = "c2s" then
      if session.started then .kickoff session
      else .kickoff { session with
        started := true,
        client := remoteAddr,
        server := localAddr }
    else .ignored

/-- Session.PacketsReceived (result.go, lines 107-116): the number of round
trips whose reply was received (Lost = false). -/
def Session.PacketsReceived (s : Session) : Nat :=
  (s.roundTrips.filter (fun v => !v.lost)).length

/-- Summary (result.go): the /latency/v1/result projection of a Session. -/
structure Summary where
  id : String
  startTime : Int
  roundTrips : List RoundTrip
  packetsSent : Nat
  packetsReceived : Nat
deriving Repr, DecidableEq

/-- Session.Summarize (result.go, lines 166-174). -/
def Session.Summarize (s : Session) : Summary :=
  { id := s.uuid, startTime := s.startTime,
    packetsSent := s.sendTimes.length,
    packetsReceived := s.PacketsReceived,
    roundTrips := s.roundTrips }

/-- HTTP response of Handler.Result: the status code and, on success, the
marshalled summary body. -/
inductive ResultResponse where
  | badRequest
  | notFound
  | internalError
  | okSummary (s : Summary)
deriving Repr, DecidableEq

/-- Handler.Result (latency1.go, lines 115-149): with no mid, respond 400;
with a mid not present in the sessions cache, 404; when the summary cannot
be marshalled, 500; when writing the response body fails, 500 (and the
session stays cached, since the handler returns before the delete);
otherwise respond 200 with the summary JSON and then remove the session
from the cache. Marshal/write failures are environment outcomes, passed in
as flags. -/
def resultHandler (midOpt : Option String)
    (sessions : List (String × Session)) (marshalOk writeOk : Bool) :
    ResultResponse × List (String × Session) :=
  match midOpt with
  | none => (.badRequest, sessions)
  | some mid =>
    match List.lookup mid sessions with
    | none => (.notFound, sessions)
    | some session =>
      if !marshalOk then (.internalError, sessions)
      else if !writeOk then (.internalError, sessions)
      else (.okSummary session.Summarize,
            sessions.eraseP (fun p => p.1 == mid))

/-! Validation of the bytes query parameter (claim C8):
Handler.upgradeAndRunMeasurement in internal/handler. -/

/-- Decimal value of a list of digit characters (48 is the code of the zero
digit). -/
def digitsVal (l : List Char) : Int :=
  l.foldl (fun acc c => acc * 10 + ((c.toNat : Int) - 48)) 0

/-- Go strconv.Atoi on the inputs relevant here: an optional sign followed
by one or more decimal digits parses to the signed value; anything else is a
syntax error (none). Range errors for values beyond 64 bits are not
modelled: the handler rejects on any non-nil error and the inputs of
interest are small. -/
def goAtoi (s : String) : Option Int :=
  match s.data with
  | [] => none
  | c :: rest =>
    let signDigits : Bool × List Char :=
      if c = '-' then (true, rest)
      else if c = '+' then (false, rest)
      else (false, c :: rest)
    if signDigits.2 = [] then none
    else if signDigits.2.all (fun d => d.isDigit) then
      some (if signDigits.1 then -digitsVal signDigits.2
            else digitsVal signDigits.2)
    else none

/-- Outcome of the byte-limit validation in
Handler.upgradeAndRunMeasurement (internal/handler): either the request is
rejected with HTTP 400 before the websocket upgrade and no test runs, or
the parsed value is later installed with Protocol.SetByteLimit. -/
inductive BytesValidation where
  | rejected
  | accepted (byteLimit : Int)
deriving Repr, DecidableEq

/-- The validation of the bytes query parameter (internal/handler): an
absent parameter leaves the byte limit at 0; a present parameter that fails
strconv.Atoi is rejected with 400; any successfully parsed integer —
including a negative one — is accepted. -/
def validateByteLimitParam (requestByteLimit : String) : BytesValidation :=
  if requestByteLimit = "" then .accepted 0
  else
    match goAtoi requestByteLimit with
    | none => .rejected
    | some v => .accepted v


/-! Theorems about the embedded definitions. -/

/-- With a positive byte limit, ScaleMessage clamps so that the counter after
adding the scaled size never exceeds the limit. -/
lemma add_ScaleMessage_le {L m b : Int} (hL : 0 < L) :
    b + ScaleMessage L m b ≤ L := by
  simp only [ScaleMessage]
  split_ifs with h
  · omega
  · omega

/-- In a run whose every turn takes the default (binary write) branch, the
invariant bytesSent + size ≤ byteLimit is maintained, so the loop can only
terminate with the counter exactly at the limit. -/
lemma senderRunFrom_binary_exact {L : Int} (hL : 0 < L)
    (events : List SenderEvent) :
    ∀ (s : SenderState) (v : Int),
      (∀ e ∈ events, e = SenderEvent.binary) →
      s.byteLimit = L → s.bytesSent + s.size ≤ L →
      senderRunFrom s events = SenderStep.limitReached v → v = L := by
  induction events with
  | nil =>
      intro s v _ _ _ hrun
      simp [senderRunFrom] at hrun
  | cons e rest ih =>
      intro s v hbin hbl hinv hrun
      have he : e = SenderEvent.binary := hbin e (by simp)
      subst he
      by_cases hterm : s.byteLimit > 0 ∧ s.bytesSent + s.size ≥ s.byteLimit
      · have hstep : senderStep s SenderEvent.binary =
            SenderStep.limitReached (s.bytesSent + s.size) := by
          simp only [senderStep]
          rw [if_pos hterm]
        simp only [senderRunFrom, hstep] at hrun
        rw [hbl] at hterm
        injection hrun with hv
        omega
      · by_cases hsc : s.size ≥ spec.MaxScaledMessageSize ∨
            s.size > (s.bytesSent + s.size).tdiv spec.ScalingFraction
        · have hstep : senderStep s SenderEvent.binary = SenderStep.running
              { s with bytesSent := s.bytesSent + s.size,
                       size := ScaleMessage s.byteLimit s.size
                         (s.bytesSent + s.size) } := by
            simp only [senderStep]
            rw [if_neg hterm, if_pos hsc]
          simp only [senderRunFrom, hstep] at hrun
          refine ih _ v (fun e he => hbin e (List.mem_cons_of_mem _ he))
            ?_ ?_ hrun
          · exact hbl
          · show s.bytesSent + s.size +
                ScaleMessage s.byteLimit s.size (s.bytesSent + s.size) ≤ L
            rw [hbl]
            exact add_ScaleMessage_le hL
        · have hstep : senderStep s SenderEvent.binary = SenderStep.running
              { s with bytesSent := s.bytesSent + s.size,
                       size := ScaleMessage s.byteLimit (s.size * 2)
                         (s.bytesSent + s.size),
                       prepSize := ScaleMessage s.byteLimit (s.size * 2)
                         (s.bytesSent + s.size) } := by
            simp only [senderStep]
            rw [if_neg hterm, if_neg hsc]
          simp only [senderRunFrom, hstep] at hrun
          refine ih _ v (fun e he => hbin e (List.mem_cons_of_mem _ he))
            ?_ ?_ hrun
          · exact hbl
          · show s.bytesSent + s.size +
                ScaleMessage s.byteLimit (s.size * 2) (s.bytesSent + s.size) ≤ L
            rw [hbl]
            exact add_ScaleMessage_le hL

/-- C1 counterexample: with byte limit 2048, the schedule "one binary write,
one interleaved measurement message of 200 encoded bytes, one binary write"
terminates with the final WireMeasurement reporting Application.BytesSent =
2248, which overshoots the limit: the JSON text frames sent by
sendWireMeasurement also count toward applicationBytesSent (protocol.go,
line 203) but are not accounted for by the byte-limit clamp. -/
theorem sender_byte_limit_overshoot_cex :
    senderRun 2048 [SenderEvent.binary, SenderEvent.measurement 200,
      SenderEvent.binary] = SenderStep.limitReached 2248 ∧
    (2248 : Int) ≠ 2048 :=
  ⟨by decide, by decide⟩

/-- C1 (amended): for every throughput1 sender stream configured with a
non-zero byte limit, the frame size is clamped at each size computation so
the limit is not exceeded, and when applicationBytesSent ≥ limit the sender
emits a final WireMeasurement, sends a close frame and returns
(SenderStep.limitReached); in every run in which no measurement text message
is interleaved before the limit is reached, the server-reported
Application.BytesSent at termination is exactly the limit (no overshoot). -/
theorem sender_byte_limit_exact_no_interleaving (L : Int) (hL : 0 < L)
    (events : List SenderEvent)
    (hbin : ∀ e ∈ events, e = SenderEvent.binary) (v : Int)
    (hrun : senderRun L events = SenderStep.limitReached v) : v = L := by
  refine senderRunFrom_binary_exact hL events (senderInit L) v hbin rfl ?_ hrun
  show (0 : Int) + ScaleMessage L spec.MinMessageSize 0 ≤ L
  exact add_ScaleMessage_le hL

/-- Witness for C1 (amended): with byte limit 2048 and two binary writes, the
sender terminates reporting exactly 2048 bytes. -/
theorem sender_byte_limit_exact_witness :
    (0 : Int) < 2048 ∧
    senderRun 2048 [SenderEvent.binary, SenderEvent.binary] =
      SenderStep.limitReached 2048 ∧ (2048 : Int) = 2048 :=
  ⟨by decide, by decide,
    sender_byte_limit_exact_no_interleaving 2048 (by decide)
      [SenderEvent.binary, SenderEvent.binary] (by decide) 2048 (by decide)⟩

/-! Adaptive frame sizing (claim C3). With no byte limit configured
(byteLimit = 0, the default), ScaleMessage is the identity and the `size`
variable only ever takes values 2^(10+k) for k ≤ 10. -/

/-- ScaleMessage with byte limit 0 (disabled) is the identity. -/
lemma ScaleMessage_zero (m b : Int) : ScaleMessage 0 m b = m := by
  simp [ScaleMessage]

lemma sizeInv_bounds {s : SenderState} (h : SizeInv s) :
    spec.MinMessageSize ≤ s.size ∧ s.size ≤ spec.MaxScaledMessageSize := by
  obtain ⟨-, k, hk, hs⟩ := h
  simp only [spec.MinMessageSize, spec.MaxScaledMessageSize]
  constructor
  · rw [hs]
    calc (1024 : Int) = 2 ^ 10 := by norm_num
    _ ≤ 2 ^ (10 + k) := pow_le_pow_right₀ (by norm_num) (by omega)
  · rw [hs]
    calc (2 : Int) ^ (10 + k) ≤ 2 ^ 20 := pow_le_pow_right₀ (by norm_num) (by omega)
    _ = 1048576 := by norm_num

/-- With byte limit 0 and the rescale condition true, a binary turn only
updates the byte counter. -/
lemma senderStep_zero_binary_keep (s : SenderState) (h0 : s.byteLimit = 0)
    (hsc : s.size ≥ spec.MaxScaledMessageSize ∨
      s.size > (s.bytesSent + s.size).tdiv spec.ScalingFraction) :
    senderStep s SenderEvent.binary =
      SenderStep.running { s with bytesSent := s.bytesSent + s.size } := by
  simp only [senderStep]
  rw [if_neg (by rw [h0]; simp), if_pos hsc, h0, ScaleMessage_zero]

/-- With byte limit 0 and the rescale condition false, a binary turn doubles
the message size and rebuilds the prepared message. -/
lemma senderStep_zero_binary_double (s : SenderState) (h0 : s.byteLimit = 0)
    (hsc : ¬(s.size ≥ spec.MaxScaledMessageSize ∨
      s.size > (s.bytesSent + s.size).tdiv spec.ScalingFraction)) :
    senderStep s SenderEvent.binary =
      SenderStep.running { s with
        bytesSent := s.bytesSent + s.size,
        size := s.size * 2,
        prepSize := s.size * 2 } := by
  simp only [senderStep]
  rw [if_neg (by rw [h0]; simp), if_neg hsc, h0, ScaleMessage_zero]

/-- The first binary frame recorded by senderWrites from a state has the
state's current message size (measurement turns do not change the size). -/
lemma senderWrites_head_size (events : List SenderEvent) :
    ∀ (s : SenderState) (q : Int × Int),
      (senderWrites s events).head? = some q → q.1 = s.size := by
  induction events with
  | nil =>
      intro s q h
      simp [senderWrites] at h
  | cons e rest ih =>
      intro s q h
      cases e with
      | measurement j =>
          simp only [senderWrites] at h
          exact ih { s with bytesSent := s.bytesSent + j } q h
      | binary =>
          simp only [senderWrites, List.head?_cons, Option.some.injEq] at h
          rw [← h]

/-- Every binary frame size in a run without a byte limit stays within
[MinMessageSize, MaxScaledMessageSize]. -/
lemma senderWrites_bounds (events : List SenderEvent) :
    ∀ (s : SenderState), SizeInv s →
      ∀ p ∈ senderWrites s events,
        spec.MinMessageSize ≤ p.1 ∧ p.1 ≤ spec.MaxScaledMessageSize := by
  induction events with
  | nil =>
      intro s _ p hp
      simp [senderWrites] at hp
  | cons e rest ih =>
      intro s hInv p hp
      cases e with
      | measurement j =>
          simp only [senderWrites] at hp
          exact ih { s with bytesSent := s.bytesSent + j } ⟨hInv.1, hInv.2⟩ p hp
      | binary =>
          by_cases hsc : s.size ≥ spec.MaxScaledMessageSize ∨
              s.size > (s.bytesSent + s.size).tdiv spec.ScalingFraction
          · simp only [senderWrites,
              senderStep_zero_binary_keep s hInv.1 hsc] at hp
            rcases List.mem_cons.mp hp with hph | hpt
            · rw [hph]
              exact sizeInv_bounds hInv
            · exact ih { s with bytesSent := s.bytesSent + s.size }
                ⟨hInv.1, hInv.2⟩ p hpt
          · simp only [senderWrites,
              senderStep_zero_binary_double s hInv.1 hsc] at hp
            rcases List.mem_cons.mp hp with hph | hpt
            · rw [hph]
              exact sizeInv_bounds hInv
            · refine ih { s with
                  bytesSent := s.bytesSent + s.size,
                  size := s.size * 2,
                  prepSize := s.size * 2 } ⟨hInv.1, ?_⟩ p hpt
              obtain ⟨-, k, hk, hs⟩ := hInv
              push_neg at hsc
              have hklt : k < 10 := by
                by_contra hge
                have hk10 : k = 10 := by omega
                rw [hs, hk10] at hsc
                simp only [spec.MaxScaledMessageSize] at hsc
                norm_num at hsc
              refine ⟨k + 1, by omega, ?_⟩
              show s.size * 2 = 2 ^ (10 + (k + 1))
              rw [hs, ← pow_succ, Nat.add_assoc]

/-- When the doubling branch is taken, the doubled size is again a power of
two no greater than 2^20. -/
lemma sizeInv_double {s : SenderState} (hInv : SizeInv s)
    (hsc : ¬(s.size ≥ spec.MaxScaledMessageSize ∨
      s.size > (s.bytesSent + s.size).tdiv spec.ScalingFraction)) :
    ∃ k : Nat, k ≤ 10 ∧ s.size * 2 = 2 ^ (10 + k) := by
  obtain ⟨-, k, hk, hs⟩ := hInv
  push_neg at hsc
  have hklt : k < 10 := by
    by_contra hge
    have hk10 : k = 10 := by omega
    rw [hs, hk10] at hsc
    simp only [spec.MaxScaledMessageSize] at hsc
    norm_num at hsc
  exact ⟨k + 1, by omega, by rw [hs, ← pow_succ, Nat.add_assoc]⟩

/-- Consecutive binary frames in a run without a byte limit: the next frame
size doubles exactly when the previous size was below MaxScaledMessageSize
and at most bytesSent/ScalingFraction at the previous write, and otherwise
stays the same; in either case it never shrinks. -/
lemma senderWrites_chain (events : List SenderEvent) :
    ∀ (s : SenderState), SizeInv s →
      List.Chain' (fun p q : Int × Int =>
        q.1 = (if p.1 < spec.MaxScaledMessageSize ∧
                  p.1 ≤ p.2.tdiv spec.ScalingFraction
               then 2 * p.1 else p.1) ∧ p.1 ≤ q.1)
        (senderWrites s events) := by
  induction events with
  | nil =>
      intro s _
      simp [senderWrites]
  | cons e rest ih =>
      intro s hInv
      cases e with
      | measurement j =>
          simp only [senderWrites]
          exact ih { s with bytesSent := s.bytesSent + j } ⟨hInv.1, hInv.2⟩
      | binary =>
          by_cases hsc : s.size ≥ spec.MaxScaledMessageSize ∨
              s.size > (s.bytesSent + s.size).tdiv spec.ScalingFraction
          · simp only [senderWrites, senderStep_zero_binary_keep s hInv.1 hsc]
            refine List.chain'_cons'.mpr ⟨?_, ih _ ⟨hInv.1, hInv.2⟩⟩
            intro q hq
            have hq1 : q.1 = s.size :=
              senderWrites_head_size rest
                { s with bytesSent := s.bytesSent + s.size } q
                (Option.mem_def.mp hq)
            refine ⟨?_, by rw [hq1]⟩
            rw [hq1, if_neg]
            rcases hsc with h1 | h2
            · exact fun hc => absurd hc.1 (not_lt.mpr h1)
            · exact fun hc => absurd hc.2 (not_le.mpr h2)
          · simp only [senderWrites, senderStep_zero_binary_double s hInv.1 hsc]
            refine List.chain'_cons'.mpr
              ⟨?_, ih _ ⟨hInv.1, sizeInv_double hInv hsc⟩⟩
            intro q hq
            have hq1 : q.1 = s.size * 2 :=
              senderWrites_head_size rest
                { s with
                  bytesSent := s.bytesSent + s.size,
                  size := s.size * 2,
                  prepSize := s.size * 2 } q
                (Option.mem_def.mp hq)
            push_neg at hsc
            refine ⟨?_, ?_⟩
            · rw [hq1, if_pos ⟨hsc.1, hsc.2⟩]
              ring
            · rw [hq1]
              have hb := (sizeInv_bounds ⟨hInv.1, hInv.2⟩).1
              simp only [spec.MinMessageSize] at hb
              omega

/-- C3: over any throughput1 sender run without a configured byte limit (so
the byte-limit terminator never clamps), every binary frame size S satisfies
MinMessageSize (1024) ≤ S ≤ MaxScaledMessageSize (1 MiB), the sequence of
frame sizes is non-decreasing (never shrinks), and the size doubles from one
binary write to the next exactly when S < MaxScaledMessageSize and
S ≤ application_bytes_sent / ScalingFraction at the previous write. -/
theorem sender_frame_size_invariant (events : List SenderEvent) :
    (∀ p ∈ senderWrites (senderInit 0) events,
        spec.MinMessageSize ≤ p.1 ∧ p.1 ≤ spec.MaxScaledMessageSize) ∧
    List.Chain' (fun p q : Int × Int => p.1 ≤ q.1)
      (senderWrites (senderInit 0) events) ∧
    List.Chain' (fun p q : Int × Int =>
        q.1 = if p.1 < spec.MaxScaledMessageSize ∧
                 p.1 ≤ p.2.tdiv spec.ScalingFraction
              then 2 * p.1 else p.1)
      (senderWrites (senderInit 0) events) := by
  have hInv : SizeInv (senderInit 0) := by
    refine ⟨rfl, 0, by norm_num, ?_⟩
    show ScaleMessage 0 spec.MinMessageSize 0 = 2 ^ (10 + 0)
    rw [ScaleMessage_zero]
    norm_num [spec.MinMessageSize]
  refine ⟨senderWrites_bounds events _ hInv, ?_, ?_⟩
  · exact List.Chain'.imp (fun a b h => h.2) (senderWrites_chain events _ hInv)
  · exact List.Chain'.imp (fun a b h => h.1) (senderWrites_chain events _ hInv)

/-- Witness for C3: in the two-write run without a byte limit, the first
recorded frame (size 1024, 1024 bytes sent) is within bounds. -/
theorem sender_frame_size_invariant_witness :
    spec.MinMessageSize ≤ (1024 : Int) ∧
    (1024 : Int) ≤ spec.MaxScaledMessageSize :=
  (sender_frame_size_invariant [SenderEvent.binary, SenderEvent.binary]).1
    (1024, 1024) (by decide)

/-- Once the protocol's sync.Once has fired, every later outgoing
WireMeasurement has all identity fields elided. -/
lemma wireSequenceFrom_true_elided (ident : ConnIdentity)
    (inputs : List (Measurement × ByteCounters)) :
    ∀ wm ∈ wireSequenceFrom ident true inputs, identityElided wm := by
  induction inputs with
  | nil =>
      intro wm h
      simp [wireSequenceFrom] at h
  | cons p rest ih =>
      intro wm h
      obtain ⟨m, c⟩ := p
      simp only [wireSequenceFrom] at h
      rcases List.mem_cons.mp h with h1 | h2
      · rw [h1]
        exact ⟨rfl, rfl, rfl, rfl⟩
      · exact ih wm h2

/-- C2: for every throughput1 stream direction whose connection identity
values are all non-empty, the identity fields of the outgoing
WireMeasurements (cc, uuid, localAddr, remoteAddr) are non-empty in exactly
the first message and are elided in every subsequent one. -/
theorem wire_identity_fields_first_only (ident : ConnIdentity)
    (hcc : ident.cc ≠ "") (huuid : ident.uuid ≠ "")
    (hlocal : ident.localAddr ≠ "") (hremote : ident.remoteAddr ≠ "")
    (inputs : List (Measurement × ByteCounters)) (i : Nat)
    (hi : i < (outgoingWires ident inputs).length) :
    (i = 0 → identityPresent ((outgoingWires ident inputs).get ⟨i, hi⟩)) ∧
    (i ≠ 0 → identityElided ((outgoingWires ident inputs).get ⟨i, hi⟩)) := by
  cases inputs with
  | nil =>
      simp [outgoingWires, wireSequenceFrom] at hi
  | cons p rest =>
      obtain ⟨m, c⟩ := p
      cases i with
      | zero =>
          refine ⟨fun _ => ?_, fun h => absurd rfl h⟩
          exact ⟨hcc, huuid, hlocal, hremote⟩
      | succ n =>
          refine ⟨fun h => absurd h (Nat.succ_ne_zero n), fun _ => ?_⟩
          have hlen : n < (wireSequenceFrom ident true rest).length := by
            simpa [outgoingWires, wireSequenceFrom] using hi
          exact wireSequenceFrom_true_elided ident rest
            ((wireSequenceFrom ident true rest).get ⟨n, hlen⟩)
            (List.get_mem _ _ _)

/-- Witness for C2: a concrete stream with non-empty identity and two
outgoing messages, whose second message has all identity fields elided. -/
theorem wire_identity_fields_first_only_witness :
    ("bbr" : String) ≠ "" ∧
    identityElided ((outgoingWires ⟨"bbr", "u1", "l1:443", "r1:5555"⟩
      [(Measurement.zero, ⟨0, 0⟩), (Measurement.zero, ⟨10, 0⟩)]).get
        ⟨1, by decide⟩) :=
  ⟨by decide,
    (wire_identity_fields_first_only ⟨"bbr", "u1", "l1:443", "r1:5555"⟩
      (by decide) (by decide) (by decide) (by decide)
      [(Measurement.zero, ⟨0, 0⟩), (Measurement.zero, ⟨10, 0⟩)] 1
      (by decide)).2 (by decide)⟩

/-- C6 counterexample: with the 100-entry channel full and the context still
live, the only possible behaviour of Throughput1Measurer.measure is to
block; the sample is neither dropped nor is the sampler able to continue.
The select in measure has no default branch, so the send is not
non-blocking. -/
theorem measurer_full_channel_blocks_cex :
    measureSelectCanTake false measurerChannelCapacity
      measurerChannelCapacity SendOutcome.blocked = true ∧
    measureSelectCanTake false measurerChannelCapacity
      measurerChannelCapacity SendOutcome.dropCtx = false ∧
    measureSelectCanTake false measurerChannelCapacity
      measurerChannelCapacity SendOutcome.sent = false := by
  decide

/-- C6 (amended): the measurer's channel send is blocking, not non-blocking:
a sample is delivered iff the buffer has room; a sample is dropped without
sending iff the context is already done; and when the channel is full and
the context is live, the sampler blocks until a reader drains the channel or
the context is cancelled. -/
theorem measurer_select_semantics (ctxDone : Bool) (queueLen chanCap : Nat) :
    (measureSelectCanTake ctxDone queueLen chanCap SendOutcome.sent = true ↔
      queueLen < chanCap) ∧
    (measureSelectCanTake ctxDone queueLen chanCap SendOutcome.dropCtx = true ↔
      ctxDone = true) ∧
    (measureSelectCanTake ctxDone queueLen chanCap SendOutcome.blocked = true ↔
      ctxDone = false ∧ chanCap ≤ queueLen) := by
  refine ⟨?_, ?_, ?_⟩
  · simp [measureSelectCanTake]
  · simp [measureSelectCanTake]
  · cases ctxDone <;> simp [measureSelectCanTake]

/-- C9: the measurer records the connection's current read/written byte
counters as offsets on Start, and every Measurement it produces reports
session-relative bytes (current counter minus the recorded offset), an
elapsed time equal to the time since measurer start, and a TCPInfo elapsed
time equal to the time since the connection's accept time. -/
theorem measurer_offsets_spec (t0 acceptTime now : Int)
    (startCounters current : ConnCounters) :
    (measurerStart t0 startCounters).bytesReadAtStart =
        startCounters.bytesRead ∧
    (measurerStart t0 startCounters).bytesWrittenAtStart =
        startCounters.bytesWritten ∧
    (measurerMeasure (measurerStart t0 startCounters) acceptTime now
        current).network.bytesSent =
      current.bytesWritten - startCounters.bytesWritten ∧
    (measurerMeasure (measurerStart t0 startCounters) acceptTime now
        current).network.bytesReceived =
      current.bytesRead - startCounters.bytesRead ∧
    (measurerMeasure (measurerStart t0 startCounters) acceptTime now
        current).elapsedTime = now - t0 ∧
    ((measurerMeasure (measurerStart t0 startCounters) acceptTime now
        current).tcpInfo.map TCPInfo.elapsedTime) = some (now - acceptTime) :=
  ⟨rfl, rfl, rfl, rfl, rfl, rfl⟩

/-- C10 counterexample: on a connection where the socket cookie is
unavailable, two UUID() calls return the two successive time-based UUIDs
generated by the fallback, which differ; no value is cached on the first
call. -/
theorem conn_uuid_fallback_unstable_cex :
    connUUID ⟨none, fun n => if n = 0 then "uuid-t0" else "uuid-t1"⟩ 0 ≠
    connUUID ⟨none, fun n => if n = 0 then "uuid-t0" else "uuid-t1"⟩ 1 := by
  decide

/-- C10 (amended): Conn.UUID is deterministic and stable per connection when
the OS socket cookie is available — every call returns the same
cookie-derived id; when the cookie is unavailable, each call returns the
freshly generated time-based UUID of that call, with no caching, so
successive calls may differ. -/
theorem conn_uuid_stability (c : ConnUUIDSource) :
    (∀ u, c.cookieUUID = some u → ∀ i j : Nat, connUUID c i = connUUID c j) ∧
    (c.cookieUUID = none → ∀ i : Nat, connUUID c i = c.fallbackUUID i) := by
  constructor
  · intro u hu i j
    simp [connUUID, hu]
  · intro hn i
    simp [connUUID, hn]

/-- Witness for C10 (amended): a connection with an available socket cookie
yields the same id on the first and sixth call. -/
theorem conn_uuid_stability_witness :
    connUUID ⟨some "cookie-1", fun _ => "x"⟩ 0 =
    connUUID ⟨some "cookie-1", fun _ => "x"⟩ 5 :=
  (conn_uuid_stability ⟨some "cookie-1", fun _ => "x"⟩).1 "cookie-1" rfl 0 5

/-- C4: for every received UDP latency packet of type s2c whose id matches a
cached session, carrying a sequence number in the domain the protocol
declares for it (seq is a non-negative integer), processing under the
session's send-times mutex rejects seq >= len(sendTimes) with InvalidSeq and
otherwise computes rtt = recvTime - sendTimes[seq] in microseconds, stores
it in lastRTT, and sets roundTrips[seq] = {rtt, lost: false}. The hypothesis
on the lengths holds for every session built by the send loop, which appends
to SendTimes and RoundTrips in lockstep. -/
theorem processPacket_s2c_spec (sessions : List (String × Session))
    (m : LatencyPacket) (remoteAddr localAddr : String) (recvTime : Int)
    (session : Session) (hlookup : List.lookup m.id sessions = some session)
    (htype : m.type = "s2c")
    (hlen : session.roundTrips.length = session.sendTimes.length)
    (hseq : 0 ≤ m.seq) :
    ((session.sendTimes.length : Int) ≤ m.seq →
      processPacket sessions m remoteAddr localAddr recvTime =
        PacketOutcome.invalidSeq) ∧
    (∀ hn : m.seq.toNat < session.sendTimes.length,
      processPacket sessions m remoteAddr localAddr recvTime =
        PacketOutcome.updated { session with
          lastRTT := recvTime - session.sendTimes.get ⟨m.seq.toNat, hn⟩,
          roundTrips := session.roundTrips.set m.seq.toNat
            ⟨recvTime - session.sendTimes.get ⟨m.seq.toNat, hn⟩, false⟩ }) := by
  have hdispatch : processPacket sessions m remoteAddr localAddr recvTime =
      processPacketS2C session m.seq recvTime := by
    simp [processPacket, hlookup, htype]
  constructor
  · intro hge
    rw [hdispatch]
    simp only [processPacketS2C]
    rw [if_pos hge]
  · intro hn
    rw [hdispatch]
    simp only [processPacketS2C]
    rw [if_neg (by omega), dif_pos ⟨hseq, hn⟩, if_pos (by omega)]

/-- Witness for C4: a session with one recorded send time at t = 1000 µs and
an echo of seq 0 received at t = 11000 µs yields RTT 10000 µs, stored in
lastRTT and in roundTrips[0] with lost = false. -/
theorem processPacket_s2c_witness :
    processPacket
      [("mid1", Session.mk "mid1" 0 "c" "s" true [1000] [⟨0, true⟩] 0)]
      (LatencyPacket.mk "s2c" "mid1" 0 0) "ra" "la" 11000 =
    PacketOutcome.updated
      (Session.mk "mid1" 0 "c" "s" true [1000] [⟨10000, false⟩] 10000) :=
  (processPacket_s2c_spec
    [("mid1", Session.mk "mid1" 0 "c" "s" true [1000] [⟨0, true⟩] 0)]
    (LatencyPacket.mk "s2c" "mid1" 0 0) "ra" "la" 11000
    (Session.mk "mid1" 0 "c" "s" true [1000] [⟨0, true⟩] 0)
    (by decide) (by decide) (by decide) (by decide)).2 (by decide)

/-- C5: an s2c packet for a cached session carrying a negative seq (which
well-formed clients never send, but any UDP peer can) passes the
seq >= len(sendTimes) guard and reaches the unguarded index sendTimes[seq]:
the slice access is out of bounds (a Go runtime panic), so processing of
such a packet neither completes normally nor returns InvalidSeq. -/
theorem processPacket_negative_seq_oob (sessions : List (String × Session))
    (m : LatencyPacket) (remoteAddr localAddr : String) (recvTime : Int)
    (session : Session) (hlookup : List.lookup m.id sessions = some session)
    (htype : m.type = "s2c") (hneg : m.seq < 0) :
    processPacket sessions m remoteAddr localAddr recvTime =
      PacketOutcome.indexOutOfRange ∧
    PacketOutcome.indexOutOfRange ≠ PacketOutcome.invalidSeq ∧
    ∀ s : Session,
      PacketOutcome.indexOutOfRange ≠ PacketOutcome.updated s := by
  refine ⟨?_, by simp, fun s => by simp⟩
  have hdispatch : processPacket sessions m remoteAddr localAddr recvTime =
      processPacketS2C session m.seq recvTime := by
    simp [processPacket, hlookup, htype]
  rw [hdispatch]
  simp only [processPacketS2C]
  rw [if_neg (by omega), dif_neg (by omega)]

/-- Witness for C5: a packet with seq = -1 for a cached session hits the
out-of-range index. -/
theorem processPacket_negative_seq_oob_witness :
    processPacket [("mid1", NewSession "mid1" 0)]
      (LatencyPacket.mk "s2c" "mid1" (-1) 0) "ra" "la" 5 =
      PacketOutcome.indexOutOfRange :=
  (processPacket_negative_seq_oob [("mid1", NewSession "mid1" 0)]
    (LatencyPacket.mk "s2c" "mid1" (-1) 0) "ra" "la" 5 (NewSession "mid1" 0)
    (by decide) (by decide) (by decide)).1

/-- C7: GET /latency/v1/result with a mid responds 200 with the session's
LatencySummary and then removes the session from the cache; a request with
no mid yields 400, a mid not present in the cache yields 404, and a summary
marshalling error yields 500 (the cache is unchanged in the error cases). -/
theorem latency_result_endpoint_spec (sessions : List (String × Session))
    (marshalOk writeOk : Bool) :
    (resultHandler none sessions marshalOk writeOk =
      (ResultResponse.badRequest, sessions)) ∧
    (∀ mid, List.lookup mid sessions = none →
      resultHandler (some mid) sessions marshalOk writeOk =
        (ResultResponse.notFound, sessions)) ∧
    (∀ mid session, List.lookup mid sessions = some session →
      resultHandler (some mid) sessions false writeOk =
        (ResultResponse.internalError, sessions)) ∧
    (∀ mid session, List.lookup mid sessions = some session →
      resultHandler (some mid) sessions true true =
        (ResultResponse.okSummary session.Summarize,
         sessions.eraseP (fun p => p.1 == mid))) := by
  refine ⟨rfl, ?_, ?_, ?_⟩
  · intro mid h
    simp [resultHandler, h]
  · intro mid session h
    simp [resultHandler, h]
  · intro mid session h
    simp [resultHandler, h]

/-- Witness for C7: a cache holding one fresh session for "mid1" answers a
result request for "mid1" with its summary and evicts it. -/
theorem latency_result_endpoint_witness :
    resultHandler (some "mid1") [("mid1", NewSession "mid1" 0)] true true =
      (ResultResponse.okSummary (NewSession "mid1" 0).Summarize, []) :=
  (latency_result_endpoint_spec [("mid1", NewSession "mid1" 0)] true
    true).2.2.2 "mid1" (NewSession "mid1" 0) (by decide)

/-- C8 counterexample: the bytes value "-5" is present and is not a
non-negative integer, yet strconv.Atoi parses it, so the request is not
rejected with 400: the handler accepts byte limit -5 and passes it to
Protocol.SetByteLimit. -/
theorem bytes_param_negative_accepted_cex :
    validateByteLimitParam "-5" = BytesValidation.accepted (-5) ∧
    (-5 : Int) < 0 := by
  refine ⟨by decide, by decide⟩

/-- C8 (amended): the handler validates the bytes query parameter only as an
integer: a request whose bytes value is present is rejected with HTTP 400
before the websocket upgrade exactly when strconv.Atoi fails on it; negative
integers parse successfully and are accepted as byte limits (the protocol
then treats a non-positive limit as disabled). -/
theorem bytes_param_rejected_iff_parse_fails (s : String) (hs : s ≠ "") :
    validateByteLimitParam s = BytesValidation.rejected ↔
      goAtoi s = none := by
  unfold validateByteLimitParam
  rw [if_neg hs]
  cases h : goAtoi s with
  | none => simp
  | some v => simp

/-- Witness for C8 (amended): "abc" fails strconv.Atoi and the request is
rejected. -/
theorem bytes_param_rejected_witness :
    ("abc" : String) ≠ "" ∧
    (validateByteLimitParam "abc" = BytesValidation.rejected ↔
      goAtoi "abc" = none) :=
  ⟨by decide, bytes_param_rejected_iff_parse_fails "abc" (by decide)⟩

end Msak
